import Mathlib

/-!
Shallow embedding of the subtitle-generation core of `main.py`
(AutomaticRedditStories): the time formatter, the punctuation classifier,
the word chunker, the timing offset/clamp engine, the karaoke markup
builder, and the title/body split of the story file.  Times are modelled
as exact rationals; Python `round` (banker's rounding) and `int`
(truncation toward zero) are modelled explicitly.
-/

/-- Python `int()` on a float: truncation toward zero. -/
def pyInt (q : ℚ) : ℤ :=
  if 0 ≤ q then ⌊q⌋ else -⌊-q⌋

/-- Python `round()` to an integer: round half to even (banker's rounding). -/
def pyRound (q : ℚ) : ℤ :=
  let f := ⌊q⌋
  let r := q - f
  if r < 1/2 then f
  else if 1/2 < r then f + 1
  else if f % 2 = 0 then f else f + 1

/-- The whitespace test of Python `str.strip()` (ASCII range). -/
def isPySpace (c : Char) : Bool :=
  c = ' ' || c = '\t' || c = '\n' || c = '\r' || c = '\x0b' || c = '\x0c'

/-- Python `str.strip()`: remove leading and trailing whitespace. -/
def pyStrip (s : String) : String :=
  String.mk (((s.data.dropWhile isPySpace).reverse.dropWhile isPySpace).reverse)

/-- Python `f"{n:02}"` for a nonnegative integer: pad to two digits with a
leading zero; wider numbers are printed in full. -/
def pad2 (n : ℤ) : String :=
  if n < 10 then "0" ++ toString n else toString n

/-- `format_ass_time` from main.py: clamp to zero, then emit
`h:mm:ss.cs` where `cs = int(round(frac * 100))`, `s = int(seconds) % 60`,
`m = (int(seconds) // 60) % 60`, `h = int(seconds) // 3600`. -/
def format_ass_time (seconds : ℚ) : String :=
  let seconds := max 0 seconds
  let cs := pyRound ((seconds - (pyInt seconds : ℚ)) * 100)
  let s := pyInt seconds % 60
  let m := (pyInt seconds / 60) % 60
  let h := pyInt seconds / 3600
  toString h ++ ":" ++ pad2 m ++ ":" ++ pad2 s ++ "." ++ pad2 cs

/-- The closed punctuation set of `_is_punct` (apostrophe is \x27, double
quote \x22, closing brace \x7d). -/
def puncts : List String :=
  [".", ",", "!", "?", ":", ";", "…", "\x27", "\x22", ")", "]", "\x7d", "—", "-", "–"]

/-- `_is_punct` from main.py: membership in the fixed punctuation set. -/
def isPunct (tok : String) : Bool :=
  puncts.contains tok

/-- A recognized word with its timing (`words[i]` entries of a whisper
segment).  `stop` models the Python key `"end"`. -/
structure WordToken where
  word : String
  start : ℚ
  stop : ℚ
deriving DecidableEq, Repr

/-- A recognition segment.  `stop` models the Python key `"end"`; an
absent or empty word list is modelled as `[]`. -/
structure Segment where
  start : ℚ
  stop : ℚ
  text : String
  words : List WordToken
deriving DecidableEq, Repr

/-- One emitted Dialogue event: post-offset, post-clamp times and the
text written after the last comma of the line. -/
structure Cue where
  start : ℚ
  stop : ℚ
  text : String
deriving DecidableEq, Repr

/-- Configuration constant `SUB_TIMING_OFFSET = -0.12` from main.py. -/
def SUB_TIMING_OFFSET : ℚ := -12/100

/-- Configuration constant `NO_SUBS_BEFORE = 0.05` from main.py. -/
def NO_SUBS_BEFORE : ℚ := 5/100

/-- Configuration constant `MAX_WORDS_PER_LINE = 4` from main.py
(as an integer so that a hypothetical negative value can be discussed). -/
def MAX_WORDS_PER_LINE : ℤ := 4

/-- Consecutive groups of `k+1` elements (the slices
`words[i:i+K]` for `i = 0, K, 2K, ...` with a positive step `K = k+1`). -/
def groupsOf (k : ℕ) : List α → List (List α)
  | [] => []
  | x :: xs => (x :: xs).take (k + 1) :: groupsOf k ((x :: xs).drop (k + 1))
termination_by xs => xs.length
decreasing_by simp [List.length_drop]; omega

/-- `words[i:i + K]` slicing loop `for i in range(0, len(words), K)`:
for a positive step this is `groupsOf`; for a negative step Python's
`range(0, n, K)` is empty, so no chunks are produced.  (A zero step
raises in Python and never occurs: the configured constant is 4.) -/
def chunksOf (K : ℤ) (xs : List α) : List (List α) :=
  if K ≤ 0 then [] else groupsOf (K.toNat - 1) xs

/-- `max(1, int(round((w["end"] - w["start"]) * 100)))`: per-word karaoke
duration in centiseconds, clamped to at least 1. -/
def durCs (w : WordToken) : ℤ :=
  max 1 (pyRound ((w.stop - w.start) * 100))

/-- The token loop of the karaoke text builder: skip tokens that are
empty after stripping, put a space before non-punctuation tokens except
at line start, and prepend each kept token with its `\k` tag. -/
def buildLineAux (first : Bool) : List WordToken → String
  | [] => ""
  | w :: ws =>
    let tok := pyStrip w.word
    if tok = "" then buildLineAux first ws
    else
      (if !first && !isPunct tok then " " else "")
        ++ "\x7b\\k" ++ toString (durCs w) ++ "\x7d" ++ tok
        ++ buildLineAux false ws

/-- `text = "".join(line).strip()`: the final markup string of a chunk. -/
def buildMarkup (chunk : List WordToken) : String :=
  pyStrip (buildLineAux true chunk)

/-- The raw (pre-offset) end time of a chunk: `chunk[-1]["end"]`
(0 for the impossible empty chunk). -/
def chunkRawEnd : List WordToken → ℚ
  | [] => 0
  | w :: ws => (ws.getLastD w).stop

/-- The per-chunk body of `save_ass_subs`: apply the timing offset, skip
the chunk if the adjusted end is at or before the title cutoff, clamp the
start past `title + gap` and 0, force a strictly positive duration, build
the karaoke markup, and drop the cue when the markup is empty. -/
def cueForChunk (offset gap title : ℚ) : List WordToken → Option Cue
  | [] => none
  | w0 :: rest =>
    let rawStart := w0.start
    let rawEnd := (rest.getLastD w0).stop
    let start0 := rawStart + offset
    let end0 := rawEnd + offset
    if end0 ≤ title then none
    else
      let start := max (max start0 (title + gap)) 0
      let stop := max end0 (start + 1/100)
      let text := buildMarkup (w0 :: rest)
      if text = "" then none else some ⟨start, stop, text⟩

/-- The per-segment body of `save_ass_subs`: skip segments ending at or
before the title cutoff; emit one plain-text fallback cue when the word
list is empty; otherwise chunk the words and emit one cue per surviving
chunk. -/
def cuesForSegment (offset gap : ℚ) (K : ℤ) (title : ℚ) (seg : Segment) : List Cue :=
  if seg.stop ≤ title then []
  else if seg.words = [] then
    let start := max (title + gap) (seg.start + offset)
    let stop := max (start + 1/100) (seg.stop + offset)
    [⟨start, stop, pyStrip seg.text⟩]
  else
    (chunksOf K seg.words).filterMap (cueForChunk offset gap title)

/-- The cue stream of `save_ass_subs` over all segments of the
recognition result, in order. -/
def save_ass_subs (offset gap : ℚ) (K : ℤ) (title : ℚ) (segs : List Segment) : List Cue :=
  segs.flatMap (cuesForSegment offset gap K title)

/-- `save_ass_subs` as main.py calls it: with the configured offset,
gap and chunk size. -/
def save_ass_subs_main (segs : List Segment) (title : ℚ) : List Cue :=
  save_ass_subs SUB_TIMING_OFFSET NO_SUBS_BEFORE MAX_WORDS_PER_LINE title segs

/-- `story_text.split("\n", 1)` over a character list: the first line and,
when a newline exists, everything after it (untouched). -/
def splitFirstNL : List Char → List Char × Option (List Char)
  | [] => ([], none)
  | c :: cs =>
    if c = '\n' then ([], some cs)
    else
      let p := splitFirstNL cs
      (c :: p.1, p.2)

/-- `story_title = lines[0][:23]`: the first 23 characters of the first
line of the story file. -/
def story_title (storyText : List Char) : List Char :=
  (splitFirstNL storyText).1.take 23

/-- `story_body = lines[1] if len(lines) > 1 else ""`: the text after the
first newline, or empty. -/
def story_body (storyText : List Char) : List Char :=
  ((splitFirstNL storyText).2).getD []

/-- Concrete input for the spec scenario of §8: one segment with four
timed words, the last a period. -/
def c3seg : Segment :=
  ⟨0, 2, "", [⟨"It", 0, 3/10⟩, ⟨"was", 3/10, 11/20⟩,
    ⟨"dark", 11/20, 11/10⟩, ⟨".", 11/10, 23/20⟩]⟩

/-- Concrete malformed input: a word token with `end < start`. -/
def c6seg : Segment :=
  ⟨12/10, 2, "oops", [⟨"oops", 2, 3/2⟩]⟩

/-- Concrete fallback-mode segment: no word list, padded text. -/
def c5seg : Segment :=
  ⟨0, 5, " hey ", []⟩

/-! ## Helper lemmas -/

/-- `chunksOf` at the configured chunk size 4 is grouping by 4. -/
theorem chunksOf_four (xs : List α) : chunksOf 4 xs = groupsOf 3 xs := rfl

/-- Bounded-length auxiliary: concatenating the groups gives back the list. -/
theorem groupsOf_flatten_aux (k : ℕ) :
    ∀ (n : ℕ) (xs : List α), xs.length ≤ n → (groupsOf k xs).flatten = xs := by
  intro n
  induction n with
  | zero =>
    intro xs hxs
    match xs with
    | [] => simp [groupsOf]
    | x :: xs' => simp at hxs
  | succ n ih =>
    intro xs hxs
    match xs with
    | [] => simp [groupsOf]
    | x :: xs' =>
      rw [List.length_cons] at hxs
      rw [groupsOf, List.flatten_cons,
        ih _ (by rw [List.length_drop, List.length_cons]; omega),
        List.take_append_drop]

/-- Concatenating the groups gives back the original list. -/
theorem groupsOf_flatten (k : ℕ) (xs : List α) : (groupsOf k xs).flatten = xs :=
  groupsOf_flatten_aux k xs.length xs le_rfl

/-- Bounded-length auxiliary: the number of groups is the rounded-up
quotient of the length. -/
theorem groupsOf_length_aux (k : ℕ) :
    ∀ (n : ℕ) (xs : List α), xs.length ≤ n →
      (groupsOf k xs).length = (xs.length + k) / (k + 1) := by
  intro n
  induction n with
  | zero =>
    intro xs hxs
    match xs with
    | [] =>
      rw [groupsOf]
      simp only [List.length_nil, Nat.zero_add]
      exact (Nat.div_eq_of_lt (by omega)).symm
    | x :: xs' => simp at hxs
  | succ n ih =>
    intro xs hxs
    match xs with
    | [] =>
      rw [groupsOf]
      simp only [List.length_nil, Nat.zero_add]
      exact (Nat.div_eq_of_lt (by omega)).symm
    | x :: xs' =>
      rw [List.length_cons] at hxs
      rw [groupsOf, List.length_cons,
        ih _ (by rw [List.length_drop, List.length_cons]; omega)]
      rw [List.length_drop, List.length_cons]
      rcases le_or_lt k xs'.length with hle | hlt
      · have h1 : xs'.length + 1 - (k + 1) + k = xs'.length := by omega
        have h2 : xs'.length + 1 + k = xs'.length + (k + 1) := by omega
        rw [h1, h2, Nat.add_div_right _ (Nat.succ_pos k)]
      · have h1 : xs'.length + 1 - (k + 1) + k = k := by omega
        have h2 : k / (k + 1) = 0 := Nat.div_eq_of_lt (by omega)
        have h3 : (xs'.length + 1 + k) / (k + 1) = 1 :=
          Nat.div_eq_of_lt_le (by omega) (by omega)
        rw [h1, h2, h3]

/-- The number of groups is the rounded-up quotient of the length. -/
theorem groupsOf_length (k : ℕ) (xs : List α) :
    (groupsOf k xs).length = (xs.length + k) / (k + 1) :=
  groupsOf_length_aux k xs.length xs le_rfl

/-- Bounded-length auxiliary: every group has at most `k + 1` elements. -/
theorem groupsOf_mem_length_aux (k : ℕ) :
    ∀ (n : ℕ) (xs : List α), xs.length ≤ n →
      ∀ l ∈ groupsOf k xs, l.length ≤ k + 1 := by
  intro n
  induction n with
  | zero =>
    intro xs hxs l hl
    match xs with
    | [] => simp [groupsOf] at hl
    | x :: xs' => simp at hxs
  | succ n ih =>
    intro xs hxs l hl
    match xs with
    | [] => simp [groupsOf] at hl
    | x :: xs' =>
      rw [List.length_cons] at hxs
      rw [groupsOf, List.mem_cons] at hl
      rcases hl with rfl | hl
      · rw [List.length_take]
        exact Nat.min_le_left _ _
      · exact ih _ (by rw [List.length_drop, List.length_cons]; omega) l hl

/-- Every group has at most `k + 1` elements. -/
theorem groupsOf_mem_length (k : ℕ) (xs : List α) :
    ∀ l ∈ groupsOf k xs, l.length ≤ k + 1 :=
  groupsOf_mem_length_aux k xs.length xs le_rfl

/-- Any cue produced by the chunk body starts at or after `title + gap`,
ends strictly after its start, and carries the (nonempty, trimmed)
markup of its chunk. -/
theorem cueForChunk_some_spec {o g t : ℚ} {ch : List WordToken} {c : Cue}
    (h : cueForChunk o g t ch = some c) :
    t + g ≤ c.start ∧ c.start < c.stop ∧ c.text = buildMarkup ch ∧ c.text ≠ "" := by
  match ch with
  | [] => simp [cueForChunk] at h
  | w0 :: rest =>
    simp only [cueForChunk] at h
    split at h
    · exact absurd h (by simp)
    · split at h
      · exact absurd h (by simp)
      · rw [Option.some_inj] at h
        subst h
        refine ⟨le_max_of_le_left (le_max_right _ _), ?_, rfl, by assumption⟩
        calc (max (max (w0.start + o) (t + g)) 0 : ℚ)
            < max (max (w0.start + o) (t + g)) 0 + 1/100 := by norm_num
          _ ≤ _ := le_max_right _ _

/-- Any cue produced for a segment starts at or after `title + gap` and
ends strictly after its start. -/
theorem mem_cuesForSegment_spec {o g : ℚ} {K : ℤ} {t : ℚ} {seg : Segment} {c : Cue}
    (h : c ∈ cuesForSegment o g K t seg) :
    t + g ≤ c.start ∧ c.start < c.stop := by
  unfold cuesForSegment at h
  split at h
  · simp at h
  · split at h
    · rw [List.mem_singleton] at h
      subst h
      refine ⟨le_max_left _ _, ?_⟩
      calc (max (t + g) (seg.start + o) : ℚ)
          < max (t + g) (seg.start + o) + 1/100 := by norm_num
        _ ≤ _ := le_max_left _ _
    · rw [List.mem_filterMap] at h
      obtain ⟨ch, _, hch⟩ := h
      have := cueForChunk_some_spec hch
      exact ⟨this.1, this.2.1⟩

/-! ## Claims -/

/-- Claim C1: every cue written by `save_ass_subs` (with the configured
offset and gap) starts at or after `TitleCutoff + NO_SUBS_BEFORE`, and no
cue is emitted for a chunk whose raw, pre-offset end time is at or before
the title cutoff. -/
theorem c1_title_exclusion (segs : List Segment) (title : ℚ) :
    (∀ c ∈ save_ass_subs_main segs title, title + NO_SUBS_BEFORE ≤ c.start) ∧
    (∀ chunk : List WordToken, chunkRawEnd chunk ≤ title →
      cueForChunk SUB_TIMING_OFFSET NO_SUBS_BEFORE title chunk = none) := by
  constructor
  · intro c hc
    rw [save_ass_subs_main, save_ass_subs, List.mem_flatMap] at hc
    obtain ⟨seg, _, hseg⟩ := hc
    exact (mem_cuesForSegment_spec hseg).1
  · intro chunk hle
    match chunk with
    | [] => rfl
    | w0 :: rest =>
      have hraw : (rest.getLastD w0).stop ≤ title := hle
      simp only [cueForChunk]
      rw [if_pos]
      show (rest.getLastD w0).stop + SUB_TIMING_OFFSET ≤ title
      have : SUB_TIMING_OFFSET ≤ 0 := by norm_num [SUB_TIMING_OFFSET]
      linarith

/-- Witness for C1 at a concrete recognition result and cutoff 1. -/
theorem c1_witness :
    ((1 : ℚ) + NO_SUBS_BEFORE ≤ (Cue.mk (47/25) (72/25) "\x7b\\k100\x7dhi").start) ∧
    cueForChunk SUB_TIMING_OFFSET NO_SUBS_BEFORE 1 [WordToken.mk "x" 0 (1/2)] = none :=
  ⟨(c1_title_exclusion [Segment.mk 2 3 "hi" [WordToken.mk "hi" 2 3]] 1).1
      (Cue.mk (47/25) (72/25) "\x7b\\k100\x7dhi")
      (by
        rw [save_ass_subs_main, save_ass_subs]
        norm_num [SUB_TIMING_OFFSET, NO_SUBS_BEFORE, MAX_WORDS_PER_LINE, cuesForSegment,
          chunksOf_four, groupsOf, cueForChunk, buildMarkup, buildLineAux, pyStrip,
          isPunct, puncts, durCs, pyRound, max_def]
        all_goals decide),
   (c1_title_exclusion [] 1).2 [WordToken.mk "x" 0 (1/2)]
      (by norm_num [chunkRawEnd])⟩

/-- Claim C2 (refuted by the code): the formatter does not carry rounding
overflow — formatting 59.996 produces a three-digit centisecond field
"0:00:59.100", not "0:01:00.00" as the documented `h:mm:ss.cs` format
requires. -/
theorem c2_no_rounding_carry :
    format_ass_time (59996/1000) = "0:00:59.100" := by
  norm_num [format_ass_time, pyInt, pyRound, pad2, max_def]
  all_goals decide

/-- Evaluation of the spec-scenario segment: one cue, clamped to
[1.05, 1.15], with a `\k` tag on every token including the period. -/
theorem cuesForSegment_c3seg :
    cuesForSegment 0 (5/100) 4 1 c3seg =
      [Cue.mk (21/20) (23/20) "\x7b\\k30\x7dIt \x7b\\k25\x7dwas \x7b\\k55\x7ddark\x7b\\k5\x7d."] := by
  have hmk : buildMarkup [⟨"It", 0, 3/10⟩, ⟨"was", 3/10, 11/20⟩,
      ⟨"dark", 11/20, 11/10⟩, ⟨".", 11/10, 23/20⟩] =
      "\x7b\\k30\x7dIt \x7b\\k25\x7dwas \x7b\\k55\x7ddark\x7b\\k5\x7d." := by
    norm_num [buildMarkup, buildLineAux, pyStrip, isPunct, puncts, durCs, pyRound, max_def]
    all_goals decide
  have hcue : cueForChunk 0 (5/100) 1 [⟨"It", 0, 3/10⟩, ⟨"was", 3/10, 11/20⟩,
      ⟨"dark", 11/20, 11/10⟩, ⟨".", 11/10, 23/20⟩] =
      some (Cue.mk (21/20) (23/20)
        "\x7b\\k30\x7dIt \x7b\\k25\x7dwas \x7b\\k55\x7ddark\x7b\\k5\x7d.") := by
    norm_num [cueForChunk, hmk, max_def, List.getLastD]
    intro h
    simp at h
  rw [cuesForSegment, if_neg (by norm_num [c3seg]), if_neg (by simp [c3seg])]
  rw [show c3seg.words = [⟨"It", 0, 3/10⟩, ⟨"was", 3/10, 11/20⟩,
      ⟨"dark", 11/20, 11/10⟩, ⟨".", 11/10, 23/20⟩] from rfl, chunksOf_four]
  simp [groupsOf, hcue]

/-- Counterexample to claim C3 as stated: on the spec scenario the markup
is not `{\k30}It {\k25}was {\k55}dark.` (the period carries its own
`{\k5}` tag). -/
theorem c3_counterexample :
    cuesForSegment 0 (5/100) 4 1 c3seg ≠
      [Cue.mk (21/20) (23/20) "\x7b\\k30\x7dIt \x7b\\k25\x7dwas \x7b\\k55\x7ddark."] := by
  rw [cuesForSegment_c3seg]
  simp only [ne_eq, List.cons.injEq, Cue.mk.injEq, and_true, not_and]
  intro _ _ h
  simp at h

/-- Claim C3 as amended: the scenario yields exactly one cue with clamped
start 1.05 and end 1.15, whose markup attaches the period without a space
but with its own duration tag: `{\k30}It {\k25}was {\k55}dark{\k5}.`. -/
theorem c3_markup_actual :
    cuesForSegment 0 (5/100) 4 1 c3seg =
      [Cue.mk (21/20) (23/20) "\x7b\\k30\x7dIt \x7b\\k25\x7dwas \x7b\\k55\x7ddark\x7b\\k5\x7d."] :=
  cuesForSegment_c3seg

/-- Claim C4: for chunk size `K ≥ 1`, the chunker yields exactly
`ceil(N/K)` chunks of at most `K` words, and concatenating them in order
reproduces the word sequence exactly. -/
theorem c4_chunk_coverage (K : ℤ) (hK : 1 ≤ K) (words : List WordToken) :
    (chunksOf K words).length = (words.length + K.toNat - 1) / K.toNat ∧
    (chunksOf K words).flatten = words ∧
    ∀ ch ∈ chunksOf K words, ch.length ≤ K.toNat := by
  have h0 : ¬ (K ≤ 0) := by omega
  have hk1 : K.toNat - 1 + 1 = K.toNat := by omega
  unfold chunksOf
  rw [if_neg h0]
  refine ⟨?_, groupsOf_flatten _ _, ?_⟩
  · rw [groupsOf_length, hk1]
    congr 1
    omega
  · intro ch hch
    have := groupsOf_mem_length _ _ ch hch
    omega

/-- Witness for C4 at `K = 4` and a five-word list. -/
theorem c4_witness :
    (chunksOf 4 [WordToken.mk "a" 0 1, WordToken.mk "b" 1 2, WordToken.mk "c" 2 3,
        WordToken.mk "d" 3 4, WordToken.mk "e" 4 5]).flatten =
      [WordToken.mk "a" 0 1, WordToken.mk "b" 1 2, WordToken.mk "c" 2 3,
        WordToken.mk "d" 3 4, WordToken.mk "e" 4 5] :=
  (c4_chunk_coverage 4 (by norm_num) _).2.1

/-- Claim C5: every emitted cue (karaoke or fallback) ends strictly after
it starts, for every signed timing offset. -/
theorem c5_strict_duration (offset title : ℚ) (segs : List Segment) :
    ∀ c ∈ save_ass_subs offset NO_SUBS_BEFORE MAX_WORDS_PER_LINE title segs,
      c.start < c.stop := by
  intro c hc
  rw [save_ass_subs, List.mem_flatMap] at hc
  obtain ⟨seg, _, hseg⟩ := hc
  exact (mem_cuesForSegment_spec hseg).2

/-- Witness for C5 at offset −1000 on a fallback segment. -/
theorem c5_witness :
    (Cue.mk (21/20) (53/50) "hey").start < (Cue.mk (21/20) (53/50) "hey").stop :=
  c5_strict_duration (-1000) 1 [c5seg]
    (Cue.mk (21/20) (53/50) "hey")
    (by
      rw [save_ass_subs]
      norm_num [c5seg, NO_SUBS_BEFORE, MAX_WORDS_PER_LINE, cuesForSegment, pyStrip, max_def]
      all_goals decide)

/-- Evaluation of the malformed-token segment: the token with
`end < start` still yields a cue, with its duration clamped to 1. -/
theorem cuesForSegment_c6seg :
    cuesForSegment 0 (5/100) 4 1 c6seg = [Cue.mk 2 (201/100) "\x7b\\k1\x7doops"] := by
  have hmk : buildMarkup [⟨"oops", 2, 3/2⟩] = "\x7b\\k1\x7doops" := by
    norm_num [buildMarkup, buildLineAux, pyStrip, isPunct, puncts, durCs, pyRound, max_def]
    all_goals decide
  have hcue : cueForChunk 0 (5/100) 1 [⟨"oops", 2, 3/2⟩] =
      some (Cue.mk 2 (201/100) "\x7b\\k1\x7doops") := by
    norm_num [cueForChunk, hmk, max_def, List.getLastD]
    intro h
    simp at h
  rw [cuesForSegment, if_neg (by norm_num [c6seg]), if_neg (by simp [c6seg])]
  rw [show c6seg.words = [⟨"oops", 2, 3/2⟩] from rfl, chunksOf_four]
  simp [groupsOf, hcue]

/-- Counterexample to claim C6 as stated: a word token with `end < start`
is not rejected — the call still produces output. -/
theorem c6_counterexample :
    save_ass_subs 0 (5/100) 4 1 [c6seg] ≠ [] := by
  rw [save_ass_subs]
  simp [cuesForSegment_c6seg]

/-- Claim C6 as amended: the code performs no input validation — a token
with `end < start` is still emitted with its karaoke duration clamped up
to 1 centisecond, and a negative chunk size silently produces no chunks
(and hence no cues) rather than an error. -/
theorem c6_no_validation :
    save_ass_subs 0 (5/100) 4 1 [c6seg] = [Cue.mk 2 (201/100) "\x7b\\k1\x7doops"] ∧
    durCs (WordToken.mk "oops" 2 (3/2)) = 1 ∧
    ∀ K : ℤ, K < 0 → ∀ ws : List WordToken, chunksOf K ws = [] := by
  refine ⟨?_, ?_, ?_⟩
  · rw [save_ass_subs]
    simp [cuesForSegment_c6seg]
  · norm_num [durCs, pyRound, max_def]
  · intro K hK ws
    rw [chunksOf, if_pos (by omega)]

/-- Witness for C6's amended claim at `K = -3`. -/
theorem c6_witness :
    chunksOf (-3) [WordToken.mk "a" 0 1] = [] :=
  c6_no_validation.2.2 (-3) (by norm_num) [WordToken.mk "a" 0 1]

/-- Claim C7: a chunk whose markup is empty after skipping blank tokens
and stripping produces no Dialogue line, and any emitted cue carries
exactly the stripped markup string, which is nonempty. -/
theorem c7_empty_markup (o g t : ℚ) (chunk : List WordToken) :
    (buildMarkup chunk = "" → cueForChunk o g t chunk = none) ∧
    (∀ c, cueForChunk o g t chunk = some c →
      c.text = pyStrip (buildLineAux true chunk) ∧ c.text ≠ "") := by
  constructor
  · intro hempty
    match chunk with
    | [] => rfl
    | w0 :: rest =>
      simp [cueForChunk, hempty]
  · intro c hc
    have h := cueForChunk_some_spec hc
    exact ⟨h.2.2.1, h.2.2.2⟩

/-- Witness for C7: a whitespace-only chunk is dropped; a real chunk's
cue carries the stripped markup. -/
theorem c7_witness :
    cueForChunk 0 (5/100) 1 [WordToken.mk " " 2 3] = none ∧
    (Cue.mk 2 3 "\x7b\\k100\x7dhi").text = pyStrip (buildLineAux true [WordToken.mk "hi" 2 3]) :=
  ⟨(c7_empty_markup 0 (5/100) 1 [WordToken.mk " " 2 3]).1 (by decide),
   ((c7_empty_markup 0 (5/100) 1 [WordToken.mk "hi" 2 3]).2 (Cue.mk 2 3 "\x7b\\k100\x7dhi")
      (by
        norm_num [cueForChunk, buildMarkup, buildLineAux, pyStrip, isPunct, puncts,
          durCs, pyRound, max_def]
        all_goals decide)).1⟩

/-- Claim C8: a segment with no word list ending after the cutoff yields
exactly one plain-text cue with the stripped segment text,
`start = max(TitleCutoff + gap, seg.start + offset)` and
`end = max(start + 0.01, seg.end + offset)`. -/
theorem c8_fallback (offset gap : ℚ) (K : ℤ) (title : ℚ) (seg : Segment)
    (hwords : seg.words = []) (hend : title < seg.stop) :
    cuesForSegment offset gap K title seg =
      [Cue.mk (max (title + gap) (seg.start + offset))
        (max ((max (title + gap) (seg.start + offset)) + 1/100) (seg.stop + offset))
        (pyStrip seg.text)] := by
  rw [cuesForSegment, if_neg (not_le.mpr hend), if_pos hwords]

/-- Witness for C8 on a concrete fallback segment. -/
theorem c8_witness :
    cuesForSegment (-12/100) (5/100) 4 1 (Segment.mk 2 5 " Hello " []) =
      [Cue.mk (max ((1:ℚ) + 5/100) (2 + -12/100))
        (max ((max ((1:ℚ) + 5/100) (2 + -12/100)) + 1/100) (5 + -12/100))
        (pyStrip " Hello ")] :=
  c8_fallback (-12/100) (5/100) 4 1 (Segment.mk 2 5 " Hello " []) rfl (by norm_num)

/-- Claim C9: a negative seconds value is clamped to zero, so the
formatter returns exactly the string for zero. -/
theorem c9_negative_clamped (q : ℚ) (h : q < 0) :
    format_ass_time q = format_ass_time 0 := by
  unfold format_ass_time
  rw [show max (0:ℚ) q = max 0 0 from by rw [max_eq_left h.le, max_self]]

/-- Witness for C9 at −1. -/
theorem c9_witness : format_ass_time (-1) = format_ass_time 0 :=
  c9_negative_clamped (-1) (by norm_num)

/-- Splitting at the first newline loses nothing: the first line, the
newline (when present) and the tail reassemble the original text. -/
theorem splitFirstNL_append (s : List Char) :
    (splitFirstNL s).1 ++ (((splitFirstNL s).2).elim [] fun b => '\n' :: b) = s := by
  induction s with
  | nil => rfl
  | cons c cs ih =>
    simp only [splitFirstNL]
    by_cases hc : c = '\n'
    · simp [hc]
    · simp only [if_neg hc]
      rw [List.cons_append, ih]

/-- Claim C10: the synthesized title is the first line cut to at most 23
characters (unchanged when the line is already short enough), while the
body — everything after the first newline — is passed through
untruncated. -/
theorem c10_title_truncation (s : List Char) :
    (story_title s).length ≤ 23 ∧
    ((splitFirstNL s).1.length ≤ 23 → story_title s = (splitFirstNL s).1) ∧
    story_title s ++ (splitFirstNL s).1.drop 23 = (splitFirstNL s).1 ∧
    ∀ b, (splitFirstNL s).2 = some b →
      story_body s = b ∧ (splitFirstNL s).1 ++ '\n' :: b = s := by
  refine ⟨?_, ?_, ?_, ?_⟩
  · rw [story_title, List.length_take]
    exact Nat.min_le_left _ _
  · intro h
    rw [story_title, List.take_of_length_le h]
  · rw [story_title]
    exact List.take_append_drop 23 _
  · intro b hb
    refine ⟨by rw [story_body, hb]; rfl, ?_⟩
    have h := splitFirstNL_append s
    rw [hb] at h
    simpa using h

/-- Witness for C10 on a short-titled story text. -/
theorem c10_witness :
    story_title ("My title\nThe body".toList) = (splitFirstNL ("My title\nThe body".toList)).1 ∧
    story_body ("My title\nThe body".toList) = "The body".toList :=
  ⟨(c10_title_truncation _).2.1 (by decide),
   ((c10_title_truncation ("My title\nThe body".toList)).2.2.2 ("The body".toList) (by decide)).1⟩
